import Mathlib

/-!
Verification of the UtilityAI admin console against its specification.

The development shallowly embeds the TypeScript source:
* `src/utils/sanitize.ts` — string sanitisation (`stripHtml`, `sanitizeEmail`);
  strings are modelled as `List Char`, the JS regex `/<[^>]*>/g` replacement as a
  left-to-right scan, `String.prototype.toLowerCase` on the ASCII range and the
  JS whitespace class `\s` on its ASCII subset.
* `src/lib/admin.ts` — the role gate (`getUserRole`, `isAdmin`, `requireAdmin`),
  the audit recorder (`logAuditEvent`) and the audit query (`getAuditLogs`);
  the external Supabase store is modelled by explicit query-result environments,
  thrown JS exceptions by `Except`.
* `src/app/api/admin/...` route handlers — modelled as functions from an
  environment describing the caller and the store to a response together with
  the list of side effects (reads, mutations, audit inserts) they perform.
* `src/app/api/admin/stats/route.ts` — the analytics aggregation; timestamps are
  seconds since epoch (`Int`), a `YYYY-MM-DD` date key is abstracted as the
  integer UTC day number (the ISO string and the day number are in
  order-preserving bijection), and the process-local timezone is a fixed
  offset `off` in seconds (local time = UTC + off).
-/

/-! ### Character-level primitives (src/utils/sanitize.ts) -/

/-- JS whitespace class `\s`, restricted to its ASCII subset: space, tab,
newline, carriage return, vertical tab, form feed.  Both `String.prototype.trim`
and the `\s` of the e-mail regex are modelled with this one predicate. -/
def isSpaceChar (c : Char) : Bool :=
  decide (c.toNat = 32 ∨ c.toNat = 9 ∨ c.toNat = 10 ∨ c.toNat = 13 ∨ c.toNat = 11 ∨ c.toNat = 12)

/-- JS `String.prototype.toLowerCase`, modelled on the ASCII range: the
uppercase letters `A`–`Z` (codes 65–90) map to `a`–`z` (codes 97–122). -/
def toLowerChar (c : Char) : Char :=
  if 65 ≤ c.toNat ∧ c.toNat ≤ 90 then Char.ofNat (c.toNat + 32) else c

theorem char_eq_iff_toNat (c d : Char) : c = d ↔ c.toNat = d.toNat := by
  constructor
  · intro h; rw [h]
  · intro h; exact Char.ext (UInt32.toNat.inj h)

theorem toNat_ofNat_of_valid (n : Nat) (h : n < 55296) : (Char.ofNat n).toNat = n := by
  unfold Char.ofNat
  split
  · rfl
  · next hv => exact absurd (Or.inl h) hv

theorem toLowerChar_toNat_of_upper (c : Char) (h : 65 ≤ c.toNat ∧ c.toNat ≤ 90) :
    (toLowerChar c).toNat = c.toNat + 32 := by
  unfold toLowerChar
  rw [if_pos h]
  exact toNat_ofNat_of_valid _ (by omega)

theorem toLowerChar_eq_self (c : Char) (h : ¬ (65 ≤ c.toNat ∧ c.toNat ≤ 90)) :
    toLowerChar c = c := by
  unfold toLowerChar
  rw [if_neg h]

theorem toLowerChar_idem (c : Char) : toLowerChar (toLowerChar c) = toLowerChar c := by
  by_cases h : 65 ≤ c.toNat ∧ c.toNat ≤ 90
  · have h2 := toLowerChar_toNat_of_upper c h
    apply toLowerChar_eq_self
    omega
  · rw [toLowerChar_eq_self c h, toLowerChar_eq_self c h]

theorem toLowerChar_fix_iff (c t : Char) (ht : ¬ (65 ≤ t.toNat ∧ t.toNat ≤ 90))
    (ht2 : ¬ (97 ≤ t.toNat ∧ t.toNat ≤ 122)) : toLowerChar c = t ↔ c = t := by
  by_cases h : 65 ≤ c.toNat ∧ c.toNat ≤ 90
  · have h2 := toLowerChar_toNat_of_upper c h
    rw [char_eq_iff_toNat, char_eq_iff_toNat, h2]
    omega
  · rw [toLowerChar_eq_self c h]

theorem isSpaceChar_toLowerChar (c : Char) : isSpaceChar (toLowerChar c) = isSpaceChar c := by
  by_cases h : 65 ≤ c.toNat ∧ c.toNat ≤ 90
  · have h2 := toLowerChar_toNat_of_upper c h
    unfold isSpaceChar
    rw [decide_eq_decide, h2]
    omega
  · rw [toLowerChar_eq_self c h]

/-! ### stripHtml (src/utils/sanitize.ts, `str.replace(/<[^>]*>/g, '')`)

The global regex replacement scans left to right; at a `<` the pattern
`<[^>]*>` matches up to and including the first later `>` (if one exists), and
the whole match is removed; a `<` with no later `>` does not match and is kept.
`findGt` returns the suffix after the first `>` of its argument. -/

def findGt : List Char → Option (List Char)
  | [] => none
  | c :: r => if c = '>' then some r else findGt r

theorem findGt_length : ∀ (l r : List Char), findGt l = some r → r.length < l.length := by
  intro l
  induction l with
  | nil => intro r h; simp [findGt] at h
  | cons c rest ih =>
    intro r h
    simp only [findGt] at h
    by_cases hc : c = '>'
    · simp [hc] at h; subst h; simp
    · simp [hc] at h
      have := ih r h
      simp
      omega

theorem findGt_suffix : ∀ (l r : List Char), findGt l = some r → r <:+ l := by
  intro l
  induction l with
  | nil => intro r h; simp [findGt] at h
  | cons c rest ih =>
    intro r h
    simp only [findGt] at h
    by_cases hc : c = '>'
    · simp [hc] at h
      subst h
      exact List.suffix_cons c rest
    · simp [hc] at h
      exact (ih r h).trans (List.suffix_cons c rest)

theorem findGt_eq_none (l : List Char) : findGt l = none ↔ '>' ∉ l := by
  induction l with
  | nil => simp [findGt]
  | cons c rest ih =>
    simp only [findGt]
    by_cases hc : c = '>'
    · simp [hc]
    · simp [hc, ih]
      intro h
      exact fun hcc => hc hcc.symm

/-- The `str.replace(/<[^>]*>/g, '')` of `stripHtml`: characters other than `<`
are kept; at a `<`, if a later `>` exists the span through the first such `>` is
dropped and scanning resumes after it, otherwise the `<` is kept. -/
def stripHtml : List Char → List Char
  | [] => []
  | c :: rest =>
    if c = '<' then
      match h : findGt rest with
      | some r => stripHtml r
      | none => c :: stripHtml rest
    else c :: stripHtml rest
termination_by l => l.length
decreasing_by
all_goals simp only [List.length_cons]
all_goals first
| omega
| (exact Nat.lt_succ_of_lt (findGt_length _ _ h))

unseal stripHtml

theorem stripHtml_cons_lt_some (rest r : List Char) (h : findGt rest = some r) :
    stripHtml ('<' :: rest) = stripHtml r := by
  simp only [stripHtml, if_pos]
  split
  · next r' heq => rw [h] at heq; cases heq; rfl
  · next heq => rw [h] at heq; cases heq

theorem stripHtml_cons_lt_none (rest : List Char) (h : findGt rest = none) :
    stripHtml ('<' :: rest) = '<' :: stripHtml rest := by
  simp only [stripHtml, if_pos]
  split
  · next r' heq => rw [h] at heq; cases heq
  · next heq => rfl

theorem stripHtml_cons_ne (c : Char) (rest : List Char) (hc : ¬ c = '<') :
    stripHtml (c :: rest) = c :: stripHtml rest := by
  simp only [stripHtml, if_neg hc]

theorem stripHtml_sublist : ∀ l : List Char, (stripHtml l).Sublist l := by
  intro l
  induction l using stripHtml.induct with
  | case1 => simp [stripHtml]
  | case2 rest r hfind ih =>
    rw [stripHtml_cons_lt_some rest r hfind]
    exact (ih.trans (findGt_suffix rest r hfind).sublist).cons '<'
  | case3 rest hfind ih =>
    rw [stripHtml_cons_lt_none rest hfind]
    exact ih.cons₂ '<'
  | case4 c rest hc ih =>
    rw [stripHtml_cons_ne c rest hc]
    exact ih.cons₂ c

/-- No `<` in the list is followed (anywhere later) by a `>`: exactly the lists
on which the `stripHtml` regex has no match, i.e. the fixpoints of `stripHtml`. -/
def noTag : List Char → Bool
  | [] => true
  | c :: rest => (if c = '<' then !(rest.contains '>') else true) && noTag rest

theorem contains_eq_mem_char (l : List Char) (c : Char) : l.contains c = true ↔ c ∈ l := by
  simp [List.contains]

theorem contains_eq_false_char (l : List Char) (c : Char) : l.contains c = false ↔ c ∉ l := by
  rw [← Bool.not_eq_true, contains_eq_mem_char]

theorem noTag_cons_of_lt (rest : List Char) :
    noTag ('<' :: rest) = (!(rest.contains '>') && noTag rest) := by
  simp [noTag]

theorem noTag_cons_of_ne (c : Char) (rest : List Char) (hc : ¬ c = '<') :
    noTag (c :: rest) = noTag rest := by
  simp [noTag, hc]

theorem noTag_sublist : ∀ (l₁ l₂ : List Char), l₁.Sublist l₂ → noTag l₂ = true → noTag l₁ = true := by
  intro l₁ l₂ h
  induction h with
  | slnil => intro h; exact h
  | cons a _ ih =>
    intro h
    apply ih
    by_cases hc : a = '<'
    · subst hc
      rw [noTag_cons_of_lt, Bool.and_eq_true] at h
      exact h.2
    · rwa [noTag_cons_of_ne a _ hc] at h
  | @cons₂ la lb a hsub ih =>
    intro h
    by_cases hc : a = '<'
    · subst hc
      rw [noTag_cons_of_lt, Bool.and_eq_true] at h ⊢
      refine ⟨?_, ih h.2⟩
      have hb : lb.contains '>' = false := by
        cases hcb : lb.contains '>'
        · rfl
        · rw [hcb] at h; exact absurd h.1 (by simp)
      rw [contains_eq_false_char] at hb
      rw [Bool.not_eq_true', contains_eq_false_char]
      exact fun hmem => hb (hsub.mem hmem)
    · rw [noTag_cons_of_ne a _ hc] at h ⊢
      exact ih h

theorem noTag_stripHtml : ∀ l : List Char, noTag (stripHtml l) = true := by
  intro l
  induction l using stripHtml.induct with
  | case1 => simp [stripHtml, noTag]
  | case2 rest r hfind ih => rw [stripHtml_cons_lt_some rest r hfind]; exact ih
  | case3 rest hfind ih =>
    rw [stripHtml_cons_lt_none rest hfind]
    rw [noTag_cons_of_lt, Bool.and_eq_true]
    refine ⟨?_, ih⟩
    rw [findGt_eq_none] at hfind
    rw [Bool.not_eq_true', contains_eq_false_char]
    exact fun hmem => hfind ((stripHtml_sublist rest).mem hmem)
  | case4 c rest hc ih =>
    rw [stripHtml_cons_ne c rest hc]
    rwa [noTag_cons_of_ne c _ hc]

theorem stripHtml_of_noTag : ∀ l : List Char, noTag l = true → stripHtml l = l := by
  intro l
  induction l with
  | nil => simp [stripHtml]
  | cons c rest ih =>
    intro h
    by_cases hc : c = '<'
    · subst hc
      rw [noTag_cons_of_lt, Bool.and_eq_true] at h
      have hng : '>' ∉ rest := by
        have h1 := h.1
        rw [Bool.not_eq_true'] at h1
        exact (contains_eq_false_char rest '>').mp h1
      rw [← findGt_eq_none] at hng
      rw [stripHtml_cons_lt_none rest hng]
      rw [ih h.2]
    · rw [stripHtml_cons_ne c rest hc]
      rw [ih ((noTag_cons_of_ne c rest hc) ▸ h)]

theorem noTag_map_toLower (l : List Char) (h : noTag l = true) :
    noTag (l.map toLowerChar) = true := by
  induction l with
  | nil => simp [noTag]
  | cons c rest ih =>
    have hmem : '>' ∈ rest.map toLowerChar ↔ '>' ∈ rest := by
      constructor
      · intro hm
        rcases List.mem_map.mp hm with ⟨a, ha, hfa⟩
        have : a = '>' := (toLowerChar_fix_iff a '>' (by decide) (by decide)).mp hfa
        rwa [← this]
      · intro hm
        have hfix : toLowerChar '>' = '>' := toLowerChar_eq_self '>' (by decide)
        rw [← hfix]
        exact List.mem_map_of_mem toLowerChar hm
    by_cases hc : c = '<'
    · subst hc
      rw [noTag_cons_of_lt, Bool.and_eq_true] at h
      have hfix : toLowerChar '<' = '<' := toLowerChar_eq_self '<' (by decide)
      rw [List.map_cons, hfix, noTag_cons_of_lt, Bool.and_eq_true]
      refine ⟨?_, ih h.2⟩
      have h1 := h.1
      rw [Bool.not_eq_true'] at h1 ⊢
      rw [contains_eq_false_char] at h1 ⊢
      exact fun hm => h1 (hmem.mp hm)
    · rw [noTag_cons_of_ne c _ hc] at h
      rw [List.map_cons, noTag_cons_of_ne _ _ (fun hcc => hc ((toLowerChar_fix_iff c '<' (by decide) (by decide)).mp hcc))]
      exact ih h

/-! ### sanitizeEmail (src/utils/sanitize.ts)

`sanitizeEmail(email)` computes `stripHtml(email).trim().toLowerCase()` and
returns it when it matches `/^[^\s@]+@[^\s@]+\.[^\s@]+$/`, else `''`. -/

/-- JS `String.prototype.trim`: drop leading and trailing whitespace. -/
def trimL (l : List Char) : List Char := (l.dropWhile isSpaceChar).rdropWhile isSpaceChar

def toLowerList (l : List Char) : List Char := l.map toLowerChar

/-- Some `.` occurs strictly inside `b` (neither first nor last position):
exactly when `b` matches `[^\s@]+\.[^\s@]+` given that `b` is nonempty and
free of whitespace and `@`. -/
def hasInnerDot (b : List Char) : Bool := ((b.drop 1).dropLast).contains '.'

/-- The regex `/^[^\s@]+@[^\s@]+\.[^\s@]+$/` of `sanitizeEmail`: no whitespace
anywhere, exactly one `@` (so `splitOn` yields exactly two parts, both free of
`@`), both parts nonempty, and a `.` strictly inside the part after the `@`. -/
def isEmailShape (l : List Char) : Bool :=
  l.all (fun c => !(isSpaceChar c)) &&
  (match l.splitOn '@' with
   | [a, b] => !(a.isEmpty) && !(b.isEmpty) && hasInnerDot b
   | _ => false)

/-- The cleaned form `stripHtml(email).trim().toLowerCase()`. -/
def cleanedOf (l : List Char) : List Char := toLowerList (trimL (stripHtml l))

def sanitizeEmailL (l : List Char) : List Char :=
  if isEmailShape (cleanedOf l) then cleanedOf l else []

/-- `sanitizeEmail` from src/utils/sanitize.ts (the `typeof` guard is vacuous
for a `String` argument). -/
def sanitizeEmail (s : String) : String := String.mk (sanitizeEmailL s.data)

theorem trimL_sublist (l : List Char) : (trimL l).Sublist l :=
  (List.rdropWhile_prefix _ _).sublist.trans (List.dropWhile_sublist _)

theorem trimL_eq_self (l : List Char) (h : ∀ c ∈ l, isSpaceChar c = false) : trimL l = l := by
  unfold trimL
  have h1 : l.dropWhile isSpaceChar = l := by
    rw [List.dropWhile_eq_self_iff]
    intro hl
    rw [h _ (l.get_mem 0 hl)]
    simp
  rw [h1, List.rdropWhile_eq_self_iff]
  intro hl
  rw [h _ (l.getLast_mem hl)]
  simp

theorem emailShape_no_space (l : List Char) (h : isEmailShape l = true) :
    ∀ c ∈ l, isSpaceChar c = false := by
  rw [isEmailShape, Bool.and_eq_true] at h
  intro c hc
  have := (List.all_eq_true.mp h.1) c hc
  rwa [Bool.not_eq_true'] at this

theorem toLowerList_idem (l : List Char) : toLowerList (toLowerList l) = toLowerList l := by
  unfold toLowerList
  rw [List.map_map]
  apply List.map_congr_left
  intro a _
  exact toLowerChar_idem a

theorem cleanedOf_fix (l : List Char) (h : isEmailShape (cleanedOf l) = true) :
    cleanedOf (cleanedOf l) = cleanedOf l := by
  have hnt : noTag (cleanedOf l) = true := by
    unfold cleanedOf toLowerList
    exact noTag_map_toLower _ (noTag_sublist _ _ (trimL_sublist _) (noTag_stripHtml l))
  have h1 : stripHtml (cleanedOf l) = cleanedOf l := stripHtml_of_noTag _ hnt
  have h2 : trimL (cleanedOf l) = cleanedOf l := trimL_eq_self _ (emailShape_no_space _ h)
  have h3 : toLowerList (cleanedOf l) = cleanedOf l := by
    unfold cleanedOf
    exact toLowerList_idem _
  calc cleanedOf (cleanedOf l)
      = toLowerList (trimL (stripHtml (cleanedOf l))) := rfl
    _ = toLowerList (trimL (cleanedOf l)) := by rw [h1]
    _ = toLowerList (cleanedOf l) := by rw [h2]
    _ = cleanedOf l := h3

theorem sanitizeEmailL_idem (l : List Char) :
    sanitizeEmailL (sanitizeEmailL l) = sanitizeEmailL l := by
  by_cases hs : isEmailShape (cleanedOf l) = true
  · have hval : sanitizeEmailL l = cleanedOf l := by rw [sanitizeEmailL, if_pos hs]
    rw [hval]
    rw [sanitizeEmailL, cleanedOf_fix l hs, if_pos hs]
  · have hval : sanitizeEmailL l = [] := by
      rw [sanitizeEmailL, if_neg hs]
    rw [hval]
    decide

/-- Condition of claim C7 read literally on the raw input: the input itself has
exactly one `@`, with at least one `.` somewhere after that `@`. -/
def rawEmailCond (l : List Char) : Bool :=
  decide (l.count '@' = 1) && ((l.dropWhile (fun c => !(c = '@' : Bool))).drop 1).contains '.'

/-- C7 counterexample: the claim ties the `exactly one @ with a . after it`
condition to the raw input, but `sanitizeEmail` tests its regex only after
`stripHtml`: the input `a<@>@b.c` has two `@`s (so it lacks the claimed
condition), yet `stripHtml` removes `<@>` and the result `a@b.c` passes the
regex, so `sanitizeEmail` returns `a@b.c`, not the empty string. -/
theorem C7_counterexample :
    rawEmailCond "a<@>@b.c".data = false ∧
    sanitizeEmail "a<@>@b.c" = "a@b.c" ∧
    ¬ sanitizeEmail "a<@>@b.c" = "" := by decide

/-- C7 (amended): `sanitizeEmail` is idempotent, and it returns the empty
string for every input whose cleaned form (HTML-stripped, trimmed, lowercased)
lacks the shape `exactly one @, nonempty whitespace-free sides, and a . strictly
inside the part after the @`. -/
theorem C7_sanitizeEmail_idempotent_and_rejecting :
    (∀ s : String, sanitizeEmail (sanitizeEmail s) = sanitizeEmail s) ∧
    (∀ s : String, isEmailShape (cleanedOf s.data) = false → sanitizeEmail s = "") := by
  constructor
  · intro s
    exact congrArg String.mk (sanitizeEmailL_idem s.data)
  · intro s h
    show String.mk (sanitizeEmailL s.data) = ""
    rw [sanitizeEmailL, if_neg (by rw [h]; exact Bool.false_ne_true)]

/-- C7 witness: a concrete invalid input is mapped to the empty string. -/
theorem C7_witness : sanitizeEmail "not-an-email" = "" :=
  C7_sanitizeEmail_idempotent_and_rejecting.2 "not-an-email" (by decide)

/-! ### Role gate (src/lib/admin.ts) -/

/-- Result of a Supabase `.single()` lookup: `row` carries the selected value;
`err` covers both a returned error and a missing row — the source treats
`error || !data` uniformly. -/
inductive QueryResult (α : Type) where
  | row (a : α)
  | err
deriving DecidableEq

/-- Environment of the gate functions: the caller as seen by
`supabase.auth.getUser()` (`none` when unauthenticated), the `user_roles` table
keyed by user id (the stored `role` column is kept as a raw string, faithful to
the `data.role as UserRoleType` cast), and a flag for an exception thrown
inside the `try` block (client construction or lookup throwing). -/
structure GateEnv where
  currentUser : Option String
  roleRow : String → QueryResult String
  throws : Bool

/-- `getUserRole` from src/lib/admin.ts: resolve the caller's role, returning
`user` when unauthenticated, on a lookup error or missing row, or on a thrown
exception. -/
def getUserRole (g : GateEnv) : String :=
  if g.throws then "user"
  else match g.currentUser with
    | none => "user"
    | some uid =>
      match g.roleRow uid with
      | .err => "user"
      | .row r => r

/-- `isAdmin` from src/lib/admin.ts: `false` when unauthenticated, on a lookup
error or missing row, or on a thrown exception; otherwise the stored role must
be exactly `admin`. -/
def isAdmin (g : GateEnv) : Bool :=
  if g.throws then false
  else match g.currentUser with
    | none => false
    | some uid =>
      match g.roleRow uid with
      | .err => false
      | .row r => r = "admin"

/-- `requireAdmin` from src/lib/admin.ts: throws
`Unauthorized: Admin access required` unless `isAdmin` holds. -/
def requireAdmin (g : GateEnv) : Except String Unit :=
  if isAdmin g then Except.ok () else Except.error "Unauthorized: Admin access required"

theorem isAdmin_eq_roleCheck (g : GateEnv) : isAdmin g = decide (getUserRole g = "admin") := by
  unfold isAdmin getUserRole
  by_cases ht : g.throws
  · simp [ht]
  · simp only [ht, if_false]
    cases hcu : g.currentUser with
    | none => simp
    | some uid =>
      cases hrr : g.roleRow uid with
      | err => simp [hrr]
      | row r => simp [hrr]

/-- C2: whenever the caller identity is missing, the role lookup errors or
returns no row, or the lookup throws, `getUserRole` resolves to `user` and
`isAdmin` to `false` — role resolution fails closed to the lowest privilege
instead of surfacing an error. -/
theorem C2_role_resolution_fails_closed (g : GateEnv)
    (h : g.throws = true ∨ g.currentUser = none ∨
      ∃ uid, g.currentUser = some uid ∧ g.roleRow uid = QueryResult.err) :
    getUserRole g = "user" ∧ isAdmin g = false := by
  unfold getUserRole isAdmin
  rcases h with h | h | ⟨uid, h1, h2⟩
  · simp [h]
  · by_cases ht : g.throws
    · simp [ht]
    · simp [ht, h]
  · by_cases ht : g.throws
    · simp [ht]
    · simp [ht, h1, h2]

/-- Concrete unauthenticated caller used by witnesses. -/
def gateAnon : GateEnv := ⟨none, fun _ => QueryResult.err, false⟩

/-- Concrete caller whose stored role is `user` (not admin). -/
def gateUser : GateEnv := ⟨some "caller-1", fun _ => QueryResult.row "user", false⟩

/-- Concrete caller whose stored role is `admin`. -/
def gateAdmin : GateEnv := ⟨some "admin-1", fun _ => QueryResult.row "admin", false⟩

/-- C2 witness: the unauthenticated caller resolves to role `user`, not admin. -/
theorem C2_witness : getUserRole gateAnon = "user" ∧ isAdmin gateAnon = false :=
  C2_role_resolution_fails_closed gateAnon (Or.inr (Or.inl rfl))

/-! ### Audit recorder (`logAuditEvent`, src/lib/audit.ts) -/

/-- Request headers consulted by `logAuditEvent` for network metadata. -/
structure ReqHeaders where
  xForwardedFor : Option String
  xRealIp : Option String
  cfConnectingIp : Option String
  userAgent : Option String

/-- JS `a || b` on nullable strings: the empty string is falsy. -/
def strOr : Option String → Option String → Option String
  | some s, b => if s = "" then b else some s
  | none, b => b

/-- JS `v || null` on a nullable string. -/
def strOrNull : Option String → Option String
  | some s => if s = "" then none else some s
  | none => none

/-- IP extraction of `logAuditEvent`: first comma-separated piece of
`x-forwarded-for` (trimmed), else `x-real-ip`, else `cf-connecting-ip`,
else null. -/
def ipFromRequest (h : ReqHeaders) : Option String :=
  strOrNull (strOr (h.xForwardedFor.map (fun s => ((s.splitOn ",").headD s).trim))
    (strOr h.xRealIp h.cfConnectingIp))

/-- Arguments of `logAuditEvent` (the opaque `details` map is omitted: no claim
depends on its contents). -/
structure AuditInput where
  userId : Option String
  userEmail : Option String
  action : String
  resourceType : Option String
  resourceId : Option String
  request : Option ReqHeaders

/-- Row shape inserted into `audit_logs`. -/
structure AuditInsertRow where
  user_id : Option String
  user_email : Option String
  action : String
  resource_type : Option String
  resource_id : Option String
  ip_address : Option String
  user_agent : Option String

/-- Failure modes of the audit write: the client construction (or anything in
the `try` block) throwing, and the insert returning an error. -/
structure AuditEnv where
  clientThrows : Bool
  insertFails : Bool

/-- `logAuditEvent` from src/lib/audit.ts: the first component is what the
caller observes (`Except.error` would model a propagated exception), the second
the row actually persisted, if any.  An insert error is logged and swallowed;
a thrown exception is caught and swallowed. -/
def logAuditEvent (e : AuditEnv) (inp : AuditInput) : Except String Unit × Option AuditInsertRow :=
  if e.clientThrows then (Except.ok (), none)
  else
    let ip := match inp.request with
      | some h => ipFromRequest h
      | none => none
    let ua := match inp.request with
      | some h => strOrNull h.userAgent
      | none => none
    let row : AuditInsertRow :=
      ⟨strOrNull inp.userId, strOrNull inp.userEmail, inp.action,
        strOrNull inp.resourceType, strOrNull inp.resourceId, ip, ua⟩
    if e.insertFails then (Except.ok (), none)
    else (Except.ok (), some row)

/-- C9: `logAuditEvent` is total with respect to audit-store failures — for
every environment (including a throwing client and a failing insert) and every
input, the caller observes a normal return, never a propagated error. -/
theorem C9_logAuditEvent_never_throws (e : AuditEnv) (inp : AuditInput) :
    (logAuditEvent e inp).1 = Except.ok () := by
  unfold logAuditEvent
  by_cases hc : e.clientThrows
  · simp [hc]
  · by_cases hi : e.insertFails
    · simp [hc, hi]
    · simp [hc, hi]

/-! ### Admin route handlers (src/app/api/admin/...)

Each handler is modelled as a function from the gate environment plus the
outcomes of its store interactions to the HTTP response it returns and the
side effects it performs after the gate: `reads` counts queries against the
external store, `writes` counts successful mutations, `audits` counts audit
rows actually inserted.  Every handler calls `requireAdmin` first inside a
`try`, and its `catch` maps the message `Unauthorized: Admin access required`
to a 403 response with the generic body `Unauthorized`. -/

structure Response where
  status : Nat
  body : String
deriving DecidableEq

/-- Side effects performed by a handler after the authorization gate. -/
structure Effects where
  reads : Nat
  writes : Nat
  audits : Nat
deriving DecidableEq

def noEffects : Effects := ⟨0, 0, 0⟩

/-- The shared `catch` of the admin routes: the `requireAdmin` message becomes
a 403 with the generic body `Unauthorized`; any other thrown message becomes a
500 carrying it. -/
def catchAdmin (m : String) : Response :=
  if m = "Unauthorized: Admin access required" then ⟨403, "Unauthorized"⟩ else ⟨500, m⟩

/-- GET /api/admin/users (src/app/api/admin/users/route.ts): gate, then list
users (throwing on error), read roles and session counts, and combine. -/
def usersGET (g : GateEnv) (listUsersFails : Bool) : Response × Effects :=
  match requireAdmin g with
  | .error m => (catchAdmin m, noEffects)
  | .ok _ =>
    if listUsersFails then (⟨500, "Failed to fetch users"⟩, ⟨1, 0, 0⟩)
    else (⟨200, "ok"⟩, ⟨3, 0, 0⟩)

/-- POST /api/admin/users/[userId]/role
(src/app/api/admin/users/[userId]/role/route.ts): gate, validate the user id
and the body, then `updateUserRole` (one select plus one update-or-insert) and
an audit insert.  `userIdValid` is the outcome of `uuidSchema.safeParse`,
`bodyValid` of `validateInput(updateUserRoleSchema, body)` (both schemas live
outside the provided sources and are abstracted by their verdicts). -/
def rolePOST (g : GateEnv) (userIdValid bodyParses bodyValid : Bool)
    (writeFails auditInsertOk : Bool) : Response × Effects :=
  match requireAdmin g with
  | .error m => (catchAdmin m, noEffects)
  | .ok _ =>
    if !userIdValid then (⟨400, "Invalid user ID format"⟩, noEffects)
    else if !bodyParses then (⟨500, "Unexpected end of JSON input"⟩, noEffects)
    else if !bodyValid then (⟨400, "Validation failed"⟩, noEffects)
    else if writeFails then (⟨500, "Failed to update user role"⟩, ⟨2, 0, 0⟩)
    else (⟨200, "User role updated successfully"⟩, ⟨3, 1, if auditInsertOk then 1 else 0⟩)

/-- GET /api/admin/audit-logs (src/app/api/admin/audit-logs/route.ts): gate,
then one filtered read via `getAuditLogs`. -/
def auditLogsGET (g : GateEnv) (queryFails : Bool) : Response × Effects :=
  match requireAdmin g with
  | .error m => (catchAdmin m, noEffects)
  | .ok _ =>
    if queryFails then (⟨500, "Failed to fetch audit logs"⟩, ⟨1, 0, 0⟩)
    else (⟨200, "ok"⟩, ⟨1, 0, 0⟩)

/-- DELETE /api/admin/audit-logs/clear
(src/app/api/admin/audit-logs/clear/route.ts): gate, then a bulk delete of all
audit rows. -/
def auditLogsClearDELETE (g : GateEnv) (deleteFails : Bool) : Response × Effects :=
  match requireAdmin g with
  | .error m => (catchAdmin m, noEffects)
  | .ok _ =>
    if deleteFails then (⟨500, "Failed to clear audit logs"⟩, noEffects)
    else (⟨200, "All audit logs cleared successfully"⟩, ⟨0, 1, 0⟩)

/-- GET /api/admin/stats (src/app/api/admin/stats/route.ts): gate, then seven
reads (users, session count, 24h activity count, 24h user activity, agent
types, 7-day audit rows, 7-day sessions) and pure aggregation. -/
def statsGET (g : GateEnv) : Response × Effects :=
  match requireAdmin g with
  | .error m => (catchAdmin m, noEffects)
  | .ok _ => (⟨200, "ok"⟩, ⟨7, 0, 0⟩)

/-- GET /api/admin/credit-usage: gate, then list users (throwing on error) and
read usage rows and profiles. -/
def creditUsageGET (g : GateEnv) (listUsersFails : Bool) : Response × Effects :=
  match requireAdmin g with
  | .error m => (catchAdmin m, noEffects)
  | .ok _ =>
    if listUsersFails then (⟨500, "Failed to fetch users"⟩, ⟨1, 0, 0⟩)
    else (⟨200, "ok"⟩, ⟨3, 0, 0⟩)

/-! ### Subscription revocation
(src/app/api/admin/users/[userId]/subscription/route.ts) -/

/-- Modelled from the spec: the audit action tag written on a revocation.  The
route references `AUDIT_ACTIONS.SUBSCRIPTION_REVOKED`, whose definition is not
among the provided sources of `src/lib/audit.ts`; the spec names the event
`subscription.revoked` (the `AuditAction` union type in the sources carries the
same literal). -/
def SUBSCRIPTION_REVOKED : String := "subscription.revoked"

/-- Profile columns read by the subscription route. -/
structure SubProfile where
  account_type : String
  email : String
deriving DecidableEq

/-- Parsed JSON body of the subscription route: its `action` field (if any)
and whether any unrecognized field is present. -/
structure SubBody where
  action : Option String
  hasExtraFields : Bool
deriving DecidableEq

/-- `revokeSubscriptionSchema.safeParse`: the strict zod schema
`z.object({action: z.literal('revoke')}).strict()` accepts exactly the object
whose single field is `action: "revoke"`. -/
def revokeBodyValid (b : SubBody) : Bool :=
  (b.action = some "revoke" : Bool) && !b.hasExtraFields

/-- Environment of the subscription route: the gate, the id/body validation
outcomes, the profile lookup result, and the failure flags of the update and
of the audit insert. -/
structure SubEnv where
  gate : GateEnv
  userIdValid : Bool
  bodyParses : Bool
  body : SubBody
  profile : QueryResult SubProfile
  updateFails : Bool
  auditInsertFails : Bool

/-- POST /api/admin/users/[userId]/subscription: the response, the list of
mutations actually performed, and the list of audit actions actually written. -/
def subscriptionPOST (e : SubEnv) : Response × List String × List String :=
  match requireAdmin e.gate with
  | .error m => (catchAdmin m, [], [])
  | .ok _ =>
    if !e.userIdValid then (⟨400, "Invalid user ID format"⟩, [], [])
    else if !e.bodyParses then (⟨500, "Unexpected end of JSON input"⟩, [], [])
    else if !(revokeBodyValid e.body) then
      (⟨403, "Forbidden: Admin cannot manually promote users to premium. Only revocation is permitted."⟩, [], [])
    else match e.profile with
      | .err => (⟨404, "User profile not found"⟩, [], [])
      | .row p =>
        if !((p.account_type = "premium" : Bool) || (p.account_type = "enterprise" : Bool)) then
          (⟨400, "User is not on a premium plan — nothing to revoke"⟩, [], [])
        else if e.updateFails then
          (⟨500, "Failed to revoke subscription"⟩, [], [])
        else
          (⟨200, "Subscription revoked successfully"⟩, ["profiles.account_type := basic"],
            if e.auditInsertFails then [] else [SUBSCRIPTION_REVOKED])

/-- C1: for every caller whose resolved role is not `admin`, each gated admin
operation (user listing, role update, subscription revocation, audit-log query
and clear, stats, credit usage) responds 403 with the generic body
`Unauthorized` and performs zero reads, zero writes and zero audit inserts
after the failed gate, whatever the rest of the environment holds. -/
theorem C1_gate_rejects_non_admin (g : GateEnv) (h : ¬ getUserRole g = "admin")
    (luFails cuFails alqFails alcFails : Bool)
    (userIdValid bodyParses bodyValid writeFails auditInsertOk : Bool)
    (e : SubEnv) (he : e.gate = g) :
    usersGET g luFails = (⟨403, "Unauthorized"⟩, noEffects) ∧
    rolePOST g userIdValid bodyParses bodyValid writeFails auditInsertOk
      = (⟨403, "Unauthorized"⟩, noEffects) ∧
    subscriptionPOST e = (⟨403, "Unauthorized"⟩, [], []) ∧
    auditLogsGET g alqFails = (⟨403, "Unauthorized"⟩, noEffects) ∧
    auditLogsClearDELETE g alcFails = (⟨403, "Unauthorized"⟩, noEffects) ∧
    statsGET g = (⟨403, "Unauthorized"⟩, noEffects) ∧
    creditUsageGET g cuFails = (⟨403, "Unauthorized"⟩, noEffects) := by
  have hA : isAdmin g = false := by
    rw [isAdmin_eq_roleCheck]
    simp [h]
  have hreq : requireAdmin g = Except.error "Unauthorized: Admin access required" := by
    unfold requireAdmin
    rw [hA]
    rfl
  have hcatch : catchAdmin "Unauthorized: Admin access required" = ⟨403, "Unauthorized"⟩ := by
    unfold catchAdmin
    rw [if_pos rfl]
  refine ⟨?_, ?_, ?_, ?_, ?_, ?_, ?_⟩ <;>
    simp only [usersGET, rolePOST, subscriptionPOST, auditLogsGET, auditLogsClearDELETE,
      statsGET, creditUsageGET, he, hreq, hcatch]

/-- C1 witness: a caller whose stored role is `user` is rejected by the user
listing with the generic 403 and no effects. -/
theorem C1_witness : usersGET gateUser false = (⟨403, "Unauthorized"⟩, noEffects) :=
  (C1_gate_rejects_non_admin gateUser (by decide) false false false false true true true
    false false ⟨gateUser, true, true, ⟨some "revoke", false⟩,
      QueryResult.row ⟨"premium", "t@example.com"⟩, false, false⟩ rfl).1

/-- C8: past an admin gate and a valid user id, the subscription route accepts
only the exact body `action: "revoke"` (any other parsed payload is rejected
with the 403 promotion-forbidden response and no effects); revoking a user who
is not on a premium or enterprise plan yields the business error with no
mutation and no audit event; a mutation or an audit write happens only on the
success path, the audit action written is exactly `subscription.revoked`, and
on the success path the single mutation is the downgrade to `basic`. -/
theorem C8_subscription_route (e : SubEnv)
    (hgate : isAdmin e.gate = true) (huid : e.userIdValid = true)
    (hparse : e.bodyParses = true) :
    (revokeBodyValid e.body = false →
      subscriptionPOST e =
        (⟨403, "Forbidden: Admin cannot manually promote users to premium. Only revocation is permitted."⟩, [], [])) ∧
    (∀ p, e.profile = QueryResult.row p → revokeBodyValid e.body = true →
      ¬ (p.account_type = "premium" ∨ p.account_type = "enterprise") →
      subscriptionPOST e = (⟨400, "User is not on a premium plan — nothing to revoke"⟩, [], [])) ∧
    ((subscriptionPOST e).2.1 ≠ [] ∨ (subscriptionPOST e).2.2 ≠ [] →
      revokeBodyValid e.body = true ∧ e.updateFails = false ∧
      ∃ p, e.profile = QueryResult.row p ∧
        (p.account_type = "premium" ∨ p.account_type = "enterprise")) ∧
    ((subscriptionPOST e).2.2 ≠ [] → (subscriptionPOST e).2.2 = [SUBSCRIPTION_REVOKED]) ∧
    (∀ p, e.profile = QueryResult.row p →
      (p.account_type = "premium" ∨ p.account_type = "enterprise") →
      revokeBodyValid e.body = true → e.updateFails = false →
      (subscriptionPOST e).2.1 = ["profiles.account_type := basic"] ∧
      (e.auditInsertFails = false → (subscriptionPOST e).2.2 = [SUBSCRIPTION_REVOKED])) := by
  have hreq : requireAdmin e.gate = Except.ok () := by
    unfold requireAdmin
    rw [hgate]
    rfl
  refine ⟨?_, ?_, ?_, ?_, ?_⟩
  · intro hv
    simp only [subscriptionPOST, hreq, huid, hparse, hv]
    simp
  · intro p hp hv hacct
    rcases not_or.mp hacct with ⟨h1, h2⟩
    simp only [subscriptionPOST, hreq, huid, hparse, hv, hp]
    simp [h1, h2]
  · intro hne
    by_cases hv : revokeBodyValid e.body
    · cases hp : e.profile with
      | err =>
        simp only [subscriptionPOST, hreq, huid, hparse, hv, hp] at hne
        simp at hne
      | row p =>
        by_cases h1 : p.account_type = "premium"
        · by_cases hu : e.updateFails
          · simp only [subscriptionPOST, hreq, huid, hparse, hv, hp, hu] at hne
            simp [h1] at hne
          · exact ⟨hv, by simpa using hu, p, rfl, Or.inl h1⟩
        · by_cases h2 : p.account_type = "enterprise"
          · by_cases hu : e.updateFails
            · simp only [subscriptionPOST, hreq, huid, hparse, hv, hp, hu] at hne
              simp [h2] at hne
            · exact ⟨hv, by simpa using hu, p, rfl, Or.inr h2⟩
          · simp only [subscriptionPOST, hreq, huid, hparse, hv, hp] at hne
            simp [h1, h2] at hne
    · simp only [subscriptionPOST, hreq, huid, hparse, hv] at hne
      simp at hne
  · intro hne
    by_cases hv : revokeBodyValid e.body
    · cases hp : e.profile with
      | err =>
        simp only [subscriptionPOST, hreq, huid, hparse, hv, hp] at hne
        simp at hne
      | row p =>
        by_cases h1 : p.account_type = "premium"
        · by_cases hu : e.updateFails
          · simp only [subscriptionPOST, hreq, huid, hparse, hv, hp, hu] at hne
            simp [h1] at hne
          · by_cases ha : e.auditInsertFails
            · simp only [subscriptionPOST, hreq, huid, hparse, hv, hp, hu, ha] at hne
              simp [h1] at hne
            · simp only [subscriptionPOST, hreq, huid, hparse, hv, hp, hu, ha] at hne ⊢
              simp [h1]
        · by_cases h2 : p.account_type = "enterprise"
          · by_cases hu : e.updateFails
            · simp only [subscriptionPOST, hreq, huid, hparse, hv, hp, hu] at hne
              simp [h2] at hne
            · by_cases ha : e.auditInsertFails
              · simp only [subscriptionPOST, hreq, huid, hparse, hv, hp, hu, ha] at hne
                simp [h2] at hne
              · simp only [subscriptionPOST, hreq, huid, hparse, hv, hp, hu, ha] at hne ⊢
                simp [h2]
          · simp only [subscriptionPOST, hreq, huid, hparse, hv, hp] at hne
            simp [h1, h2] at hne
    · simp only [subscriptionPOST, hreq, huid, hparse, hv] at hne
      simp at hne
  · intro p hp hacct hv hu
    have hacctB : ((p.account_type = "premium" : Bool) || (p.account_type = "enterprise" : Bool)) = true := by
      rcases hacct with h1 | h1 <;> simp [h1]
    simp only [subscriptionPOST, hreq, huid, hparse, hv, hp, hu, hacctB]
    constructor
    · simp
    · intro ha
      simp [ha]

/-- C8 witness: a concrete admin-gated revocation of a premium profile performs
exactly the downgrade mutation and writes the `subscription.revoked` audit
event. -/
theorem C8_witness :
    (subscriptionPOST ⟨gateAdmin, true, true, ⟨some "revoke", false⟩,
      QueryResult.row ⟨"premium", "t@example.com"⟩, false, false⟩).2.1
      = ["profiles.account_type := basic"] :=
  ((C8_subscription_route ⟨gateAdmin, true, true, ⟨some "revoke", false⟩,
      QueryResult.row ⟨"premium", "t@example.com"⟩, false, false⟩
    (by decide) rfl rfl).2.2.2.2 ⟨"premium", "t@example.com"⟩ rfl
    (Or.inl rfl) (by decide) rfl).1

/-! ### getAuditLogs (src/lib/audit.ts)

The composed Supabase query is given its standard semantics over an explicit
list of rows: `.eq`/`.gte`/`.lte` filter, `.order('created_at', descending)`
sorts, `.range(offset, offset + limit - 1)` slices the sorted list, and
`count: 'exact'` reports the number of matching rows before slicing.
`created_at` ISO strings are modelled as integers (lexicographic order on the
ISO format agrees with chronological order). -/

structure AuditLogRow where
  user_id : Option String
  action : String
  resource_type : Option String
  created_at : Int
deriving DecidableEq

structure AuditFilters where
  userId : Option String
  action : Option String
  resourceType : Option String
  startDate : Option Int
  endDate : Option Int
  limit : Option Nat
  offset : Option Nat

/-- Conjunction of the optional `.eq`/`.gte`/`.lte` filters applied by
`getAuditLogs` (a filter left unset matches everything). -/
def matchesFilters (f : AuditFilters) (r : AuditLogRow) : Bool :=
  (match f.userId with | some v => (r.user_id = some v : Bool) | none => true) &&
  (match f.action with | some v => (r.action = v : Bool) | none => true) &&
  (match f.resourceType with | some v => (r.resource_type = some v : Bool) | none => true) &&
  (match f.startDate with | some v => decide (v ≤ r.created_at) | none => true) &&
  (match f.endDate with | some v => decide (r.created_at ≤ v) | none => true)

/-- `filters?.limit || 50`: both an absent and a zero limit fall back to 50
(`0` is falsy in JS). -/
def effLimit (o : Option Nat) : Nat :=
  match o with
  | some n => if n = 0 then 50 else n
  | none => 50

/-- `filters?.offset || 0`. -/
def effOffset (o : Option Nat) : Nat :=
  match o with
  | some n => n
  | none => 0

/-- Matching rows sorted by `created_at` descending. -/
def auditLogsSorted (store : List AuditLogRow) (f : AuditFilters) : List AuditLogRow :=
  (store.filter (matchesFilters f)).mergeSort (fun a b => decide (b.created_at ≤ a.created_at))

/-- Success payload of `getAuditLogs`: the `range(offset, offset + limit - 1)`
page of the sorted matching rows, and the exact count of matching rows. -/
def getAuditLogsOk (store : List AuditLogRow) (f : AuditFilters) : List AuditLogRow × Nat :=
  (((auditLogsSorted store f).drop (effOffset f.offset)).take (effLimit f.limit),
    (store.filter (matchesFilters f)).length)

/-- `getAuditLogs` from src/lib/audit.ts: a failing read throws the single
error `Failed to fetch audit logs`; otherwise the page and the total count are
returned. -/
def getAuditLogs (store : List AuditLogRow) (f : AuditFilters) (readFails : Bool) :
    Except String (List AuditLogRow × Nat) :=
  if readFails then Except.error "Failed to fetch audit logs"
  else Except.ok (getAuditLogsOk store f)

/-- C10: for every store and filter combination, `getAuditLogs` pages the
matching rows in `created_at`-descending order, returns at most `limit` rows
starting at `offset` (with defaults 50 and 0 when unspecified), reports the
total matching-row count rather than the page size, and surfaces a failing
read as the single error `Failed to fetch audit logs`. -/
theorem C10_getAuditLogs_paging (store : List AuditLogRow) (f : AuditFilters) :
    getAuditLogs store f true = Except.error "Failed to fetch audit logs" ∧
    getAuditLogs store f false = Except.ok (getAuditLogsOk store f) ∧
    (getAuditLogsOk store f).1.Pairwise (fun a b => b.created_at ≤ a.created_at) ∧
    (getAuditLogsOk store f).1.length ≤ effLimit f.limit ∧
    (getAuditLogsOk store f).1
      = ((auditLogsSorted store f).drop (effOffset f.offset)).take (effLimit f.limit) ∧
    (getAuditLogsOk store f).2 = (store.filter (matchesFilters f)).length ∧
    effLimit none = 50 ∧ effOffset none = 0 := by
  refine ⟨rfl, rfl, ?_, ?_, rfl, rfl, rfl, rfl⟩
  · have hs : (auditLogsSorted store f).Pairwise
        (fun a b => decide (b.created_at ≤ a.created_at) = true) := by
      apply List.sorted_mergeSort
      · intro a b c hab hbc
        rw [decide_eq_true_eq] at hab hbc ⊢
        exact le_trans hbc hab
      · intro a b
        rcases le_total b.created_at a.created_at with h | h
        · simp [h]
        · simp [h]
    have hsub : (getAuditLogsOk store f).1.Sublist (auditLogsSorted store f) :=
      (List.take_sublist _ _).trans (List.drop_sublist _ _)
    exact (List.Pairwise.sublist hsub hs).imp (fun hab => by rwa [decide_eq_true_eq] at hab)
  · exact List.length_take_le _ _

/-! ### Stats aggregation: per-key counting and top-N
(src/app/api/admin/stats/route.ts)

A JS `Map` populated by `map.set(k, (map.get(k) || 0) + 1)` over a list of
keys, then read back with `Array.from(map.entries())`, yields the distinct
keys in first-occurrence order, each paired with its number of occurrences.
`Array.prototype.sort` with comparator `(a, b) => b.count - a.count` is a
stable descending sort by count, modelled by `mergeSort`. -/

unseal List.merge List.mergeSort

/-- Distinct keys of a list in first-occurrence (JS `Map` insertion) order. -/
def mapKeys (l : List String) : List String :=
  l.foldl (fun acc a => if a ∈ acc then acc else acc ++ [a]) []

/-- Entries of the counting `Map`: each distinct key with its occurrence count. -/
def countPairs (l : List String) : List (String × Nat) :=
  (mapKeys l).map (fun k => (k, l.count k))

/-- `.sort((a, b) => b.count - a.count)`: stable sort, descending by count. -/
def sortByCountDesc (ps : List (String × Nat)) : List (String × Nat) :=
  ps.mergeSort (fun p q => decide (q.2 ≤ p.2))

theorem foldl_keyInsert_nodup (l : List String) :
    ∀ acc : List String, acc.Nodup →
      (l.foldl (fun acc a => if a ∈ acc then acc else acc ++ [a]) acc).Nodup := by
  induction l with
  | nil => intro acc h; exact h
  | cons a l ih =>
    intro acc h
    simp only [List.foldl_cons]
    by_cases ha : a ∈ acc
    · rw [if_pos ha]; exact ih acc h
    · rw [if_neg ha]
      exact ih _ (by simp [List.nodup_append, h, ha])

theorem foldl_keyInsert_mem (l : List String) :
    ∀ (acc : List String) (x : String),
      (x ∈ l.foldl (fun acc a => if a ∈ acc then acc else acc ++ [a]) acc ↔ x ∈ acc ∨ x ∈ l) := by
  induction l with
  | nil => intro acc x; simp
  | cons a l ih =>
    intro acc x
    simp only [List.foldl_cons]
    by_cases ha : a ∈ acc
    · rw [if_pos ha, ih]
      constructor
      · rintro (h | h)
        · exact Or.inl h
        · exact Or.inr (List.mem_cons_of_mem a h)
      · rintro (h | h)
        · exact Or.inl h
        · rcases List.mem_cons.mp h with h | h
          · exact Or.inl (h ▸ ha)
          · exact Or.inr h
    · rw [if_neg ha, ih]
      simp only [List.mem_append, List.mem_singleton, List.mem_cons]
      tauto

theorem mapKeys_nodup (l : List String) : (mapKeys l).Nodup :=
  foldl_keyInsert_nodup l [] List.nodup_nil

theorem mapKeys_mem (l : List String) (x : String) : x ∈ mapKeys l ↔ x ∈ l := by
  rw [mapKeys, foldl_keyInsert_mem]
  simp

theorem indicator_sum (ks : List String) (a : String) :
    (ks.map (fun k => if a = k then (1 : Nat) else 0)).sum = ks.count a := by
  induction ks with
  | nil => simp
  | cons k ks ih =>
    simp only [List.map_cons, List.sum_cons, List.count_cons, ih]
    by_cases h : a = k
    · simp [h]
      omega
    · have h2 : ¬ (k = a) := fun hh => h hh.symm
      simp [h, h2]

theorem sum_counts (ks : List String) (hnd : ks.Nodup) :
    ∀ l : List String, (∀ a ∈ l, a ∈ ks) →
      (ks.map (fun k => l.count k)).sum = l.length := by
  intro l
  induction l with
  | nil => simp
  | cons a l ih =>
    intro hmem
    have hrw : ks.map (fun k => List.count k (a :: l))
        = ks.map (fun k => List.count k l + if a = k then 1 else 0) := by
      apply List.map_congr_left
      intro k _
      rw [List.count_cons]
      simp [beq_iff_eq]
    rw [hrw, List.sum_map_add, indicator_sum,
      ih (fun x hx => hmem x (List.mem_cons_of_mem a hx)),
      List.count_eq_one_of_mem hnd (hmem a (List.mem_cons_self a l))]
    rfl

theorem sum_countPairs (l : List String) :
    ((countPairs l).map (fun p => p.2)).sum = l.length := by
  have h : (countPairs l).map (fun p => p.2) = (mapKeys l).map (fun k => l.count k) := by
    rw [countPairs, List.map_map]
    rfl
  rw [h]
  exact sum_counts (mapKeys l) (mapKeys_nodup l) l (fun a ha => (mapKeys_mem l a).mpr ha)

theorem sortByCountDesc_pairwise (ps : List (String × Nat)) :
    (sortByCountDesc ps).Pairwise (fun p q => q.2 ≤ p.2) := by
  have hs : (sortByCountDesc ps).Pairwise (fun p q => decide (q.2 ≤ p.2) = true) := by
    apply List.sorted_mergeSort
    · intro a b c hab hbc
      rw [decide_eq_true_eq] at hab hbc ⊢
      exact le_trans hbc hab
    · intro a b
      rcases le_total b.2 a.2 with h | h
      · simp [h]
      · simp [h]
  exact hs.imp (fun hab => by rwa [decide_eq_true_eq] at hab)

theorem countPairs_pos (l : List String) (p : String × Nat) (hp : p ∈ countPairs l) :
    1 ≤ p.2 := by
  rw [countPairs] at hp
  rcases List.mem_map.mp hp with ⟨k, hk, hkp⟩
  have hmem : k ∈ l := (mapKeys_mem l k).mp hk
  have : 0 < l.count k := List.count_pos_iff.mpr hmem
  rw [← hkp]
  exact this

/-- `action_breakdown_7d`: the top 8 (action, count) pairs over the 7-day
window, descending by count. -/
def actionBreakdown7d (actions : List String) : List (String × Nat) :=
  (sortByCountDesc (countPairs actions)).take 8

/-- C6: `action_breakdown_7d` is the top 8 (action, count) pairs in descending
count order; its counts sum to at most the total 7-day event count, with
equality exactly when at most 8 distinct actions occurred. -/
theorem C6_action_breakdown_top8 (actions : List String) :
    (actionBreakdown7d actions).Pairwise (fun p q => q.2 ≤ p.2) ∧
    (actionBreakdown7d actions).length = min 8 (mapKeys actions).length ∧
    ((actionBreakdown7d actions).map (fun p => p.2)).sum ≤ actions.length ∧
    (((actionBreakdown7d actions).map (fun p => p.2)).sum = actions.length
      ↔ (mapKeys actions).length ≤ 8) := by
  have hperm : (sortByCountDesc (countPairs actions)).Perm (countPairs actions) :=
    List.mergeSort_perm _ _
  have hlen : (sortByCountDesc (countPairs actions)).length = (mapKeys actions).length := by
    rw [hperm.length_eq, countPairs, List.length_map]
  have htotal : ((sortByCountDesc (countPairs actions)).map (fun p => p.2)).sum
      = actions.length := by
    rw [(hperm.map (fun p => p.2)).sum_eq, sum_countPairs]
  have hsplit : ((actionBreakdown7d actions).map (fun p => p.2)).sum
        + (((sortByCountDesc (countPairs actions)).drop 8).map (fun p => p.2)).sum
      = actions.length := by
    have h0 := List.sum_take_add_sum_drop
      ((sortByCountDesc (countPairs actions)).map (fun p => p.2)) 8
    rw [htotal] at h0
    rw [actionBreakdown7d, List.map_take, List.map_drop]
    exact h0
  refine ⟨?_, ?_, ?_, ?_⟩
  · exact List.Pairwise.sublist (List.take_sublist _ _) (sortByCountDesc_pairwise _)
  · rw [actionBreakdown7d, List.length_take, hlen]
  · omega
  · constructor
    · intro hsum
      by_contra hgt
      push_neg at hgt
      have hdroplen : 0 < ((sortByCountDesc (countPairs actions)).drop 8).length := by
        rw [List.length_drop, hlen]
        omega
      have hdropsum : (((sortByCountDesc (countPairs actions)).drop 8).map (fun p => p.2)).sum = 0 := by
        omega
      rcases List.exists_mem_of_length_pos hdroplen with ⟨p, hpmem⟩
      have hp1 : 1 ≤ p.2 :=
        countPairs_pos actions p (hperm.mem_iff.mp ((List.drop_sublist 8 _).subset hpmem))
      have hzero : ∀ x ∈ ((sortByCountDesc (countPairs actions)).drop 8).map (fun p => p.2), x = 0 :=
        List.sum_eq_zero_iff.mp hdropsum
      have := hzero p.2 (List.mem_map_of_mem _ hpmem)
      omega
    · intro hle
      have htake : (sortByCountDesc (countPairs actions)).take 8
          = sortByCountDesc (countPairs actions) :=
        List.take_of_length_le (by omega)
      rw [actionBreakdown7d, htake, htotal]

/-- `most_used_agents`: the top 5 (agent_type, usage_count) pairs over all
sessions, descending by session count. -/
def mostUsedAgents (agentTypes : List String) : List (String × Nat) :=
  (sortByCountDesc (countPairs agentTypes)).take 5

/-- `totalAgentSessions`: the sum of usage counts over the returned top-5 set
only. -/
def totalAgentSessions (agentTypes : List String) : Nat :=
  ((mostUsedAgents agentTypes).map (fun p => p.2)).sum

/-- `Math.round((count / total) * 100)` for a positive total, evaluated in
exact rational arithmetic: round half away from zero (both operands are
nonnegative). -/
def roundPct (c s : Nat) : Nat := (200 * c + s) / (2 * s)

/-- `agent_usage_distribution`: each top-5 entry extended with
`percentage = totalAgentSessions > 0 ? Math.round(count / total * 100) : 0`. -/
def agentUsageDistribution (agentTypes : List String) : List (String × Nat × Nat) :=
  (mostUsedAgents agentTypes).map (fun p =>
    (p.1, p.2, if 0 < totalAgentSessions agentTypes
      then roundPct p.2 (totalAgentSessions agentTypes) else 0))

/-- C5: every distribution entry's percentage is `round(100 * count / S)` with
`S` the sum over the top-5 set only (0 when `S` is zero, with no division
error); on six equally-used agent types `S` is 5 while six sessions exist, so
the denominator is not the all-types total; and with three equally-used agent
types the percentages are 33 each, summing to 99, not 100. -/
theorem C5_agent_usage_distribution_pct (agentTypes : List String) :
    (∀ e ∈ agentUsageDistribution agentTypes,
      e.2.2 = if 0 < totalAgentSessions agentTypes
        then roundPct e.2.1 (totalAgentSessions agentTypes) else 0) ∧
    totalAgentSessions ["a", "b", "c", "d", "e", "f"] = 5 ∧
    (["a", "b", "c", "d", "e", "f"] : List String).length = 6 ∧
    ((agentUsageDistribution ["a", "a", "b", "b", "c", "c"]).map (fun e => e.2.2)).sum = 99 := by
  refine ⟨?_, by decide, by decide, by decide⟩
  intro e he
  rcases List.mem_map.mp he with ⟨p, _, hpe⟩
  rw [← hpe]

/-- C5 witness: on the six-type input the first distribution entry carries
percentage `round(100 * 1 / 5) = 20`. -/
theorem C5_witness :
    ("a", 1, 20) ∈ agentUsageDistribution ["a", "b", "c", "d", "e", "f"] ∧
    (("a", 1, 20) : String × Nat × Nat).2.2
      = roundPct 1 (totalAgentSessions ["a", "b", "c", "d", "e", "f"]) := by
  constructor
  · decide
  · have h := (C5_agent_usage_distribution_pct ["a", "b", "c", "d", "e", "f"]).1
      ("a", 1, 20) (by decide)
    rw [h]
    decide

/-! ### Activity timelines (src/app/api/admin/stats/route.ts)

Timestamps are seconds since epoch (`Int`); the process timezone is a fixed
offset `off` in seconds (local wall-clock time of instant `t` is `t + off`);
a `YYYY-MM-DD` map key is abstracted as the integer day number (the ISO date
string and the day number are in order-preserving bijection, so string keys
are equal or lexicographically sorted exactly when the day numbers are). -/

/-- `formatDateKey`: `new Date(t).toISOString().slice(0, 10)` — the UTC
calendar date of the instant, as a UTC day number. -/
def formatDateKey (t : Int) : Int := t / 86400

/-- The local calendar date of an instant under the fixed timezone offset
`off`, as a day number: the date shown by a wall clock at UTC+off. -/
def localDayKey (t off : Int) : Int := (t + off) / 86400

/-- Rows of `auditLogs7d` consumed by the timelines. -/
structure LogEvent where
  action : String
  created_at : Int

structure DayBucket where
  date : Int
  actions : Nat
  sessions_created : Nat
  user_logins : Nat
  user_logouts : Nat
deriving DecidableEq

/-- The seven buckets initialised for `i = 0..6` at key
`formatDateKey(now minus (6 - i) days)`; under a fixed offset, `setDate(d - k)`
subtracts exactly `k * 86400` seconds. -/
def initTimeline7d (now : Int) : List DayBucket :=
  (List.range 7).map (fun (i : Nat) => ⟨formatDateKey (now - (6 - (i : Int)) * 86400), 0, 0, 0, 0⟩)

/-- Per-bucket effect of one audit row on the 7-day timeline: the bucket whose
key equals the row's `formatDateKey` gains one action and conditionally one
login/logout; other buckets (and rows whose key is absent) are untouched. -/
def dayLogStep (ev : LogEvent) (b : DayBucket) : DayBucket :=
  if formatDateKey ev.created_at = b.date then
    { b with
        actions := b.actions + 1,
        user_logins := b.user_logins + (if ev.action = "user.login" then 1 else 0),
        user_logouts := b.user_logouts + (if ev.action = "user.logout" then 1 else 0) }
  else b

/-- Per-bucket effect of one session row: `sessions_created` increments. -/
def daySessStep (t : Int) (b : DayBucket) : DayBucket :=
  if formatDateKey t = b.date then { b with sessions_created := b.sessions_created + 1 } else b

/-- `activity_timeline_7d`: initialise the seven buckets, bucket the audit
rows, bucket the session rows, then sort ascending by date key.  Looking a key
up in the `Map` and mutating the found bucket equals mapping the per-bucket
step over the bucket list. -/
def timeline7d (now : Int) (logs : List LogEvent) (sessions : List Int) : List DayBucket :=
  ((sessions.foldl (fun tl t => tl.map (daySessStep t))
      (logs.foldl (fun tl ev => tl.map (dayLogStep ev)) (initTimeline7d now)))).mergeSort
    (fun a b => decide (a.date ≤ b.date))

theorem foldl_map_pointwise {α ε : Type} (g : ε → α → α) :
    ∀ (evs : List ε) (tl : List α),
      evs.foldl (fun tl ev => tl.map (g ev)) tl
        = tl.map (fun b => evs.foldl (fun b ev => g ev b) b) := by
  intro evs
  induction evs with
  | nil => intro tl; simp
  | cons e evs ih =>
    intro tl
    simp only [List.foldl_cons]
    rw [ih (tl.map (g e)), List.map_map]
    rfl

theorem dayLogStep_date (ev : LogEvent) (b : DayBucket) : (dayLogStep ev b).date = b.date := by
  unfold dayLogStep
  split <;> rfl

theorem daySessStep_date (t : Int) (b : DayBucket) : (daySessStep t b).date = b.date := by
  unfold daySessStep
  split <;> rfl

theorem dayLogFold (evs : List LogEvent) :
    ∀ b : DayBucket,
      (evs.foldl (fun b ev => dayLogStep ev b) b).date = b.date ∧
      (evs.foldl (fun b ev => dayLogStep ev b) b).actions
        = b.actions + (evs.filter (fun ev => (formatDateKey ev.created_at = b.date : Bool))).length ∧
      (evs.foldl (fun b ev => dayLogStep ev b) b).user_logins
        = b.user_logins + (evs.filter (fun ev =>
            (formatDateKey ev.created_at = b.date : Bool) && (ev.action = "user.login" : Bool))).length ∧
      (evs.foldl (fun b ev => dayLogStep ev b) b).user_logouts
        = b.user_logouts + (evs.filter (fun ev =>
            (formatDateKey ev.created_at = b.date : Bool) && (ev.action = "user.logout" : Bool))).length ∧
      (evs.foldl (fun b ev => dayLogStep ev b) b).sessions_created = b.sessions_created := by
  induction evs with
  | nil => intro b; simp
  | cons ev evs ih =>
    intro b
    simp only [List.foldl_cons, List.filter_cons]
    obtain ⟨hd, ha, hl, ho, hs⟩ := ih (dayLogStep ev b)
    rw [dayLogStep_date] at hd ha hl ho
    by_cases hmatch : formatDateKey ev.created_at = b.date
    · have hstep : dayLogStep ev b =
          { b with
              actions := b.actions + 1,
              user_logins := b.user_logins + (if ev.action = "user.login" then 1 else 0),
              user_logouts := b.user_logouts + (if ev.action = "user.logout" then 1 else 0) } := by
        unfold dayLogStep
        rw [if_pos hmatch]
      refine ⟨hd, ?_, ?_, ?_, ?_⟩
      · rw [ha, hstep]
        simp [hmatch]
        omega
      · rw [hl, hstep]
        by_cases hact : ev.action = "user.login"
        · simp [hmatch, hact]
          omega
        · simp [hmatch, hact]
      · rw [ho, hstep]
        by_cases hact : ev.action = "user.logout"
        · simp [hmatch, hact]
          omega
        · simp [hmatch, hact]
      · rw [hs, hstep]
    · have hstep : dayLogStep ev b = b := by
        unfold dayLogStep
        rw [if_neg hmatch]
      rw [hstep] at hd ha hl ho hs ⊢
      refine ⟨hd, ?_, ?_, ?_, hs⟩
      · rw [ha]
        simp [hmatch]
      · rw [hl]
        simp [hmatch]
      · rw [ho]
        simp [hmatch]

theorem daySessFold (ts : List Int) :
    ∀ b : DayBucket,
      (ts.foldl (fun b t => daySessStep t b) b).date = b.date ∧
      (ts.foldl (fun b t => daySessStep t b) b).sessions_created
        = b.sessions_created + (ts.filter (fun t => (formatDateKey t = b.date : Bool))).length ∧
      (ts.foldl (fun b t => daySessStep t b) b).actions = b.actions ∧
      (ts.foldl (fun b t => daySessStep t b) b).user_logins = b.user_logins ∧
      (ts.foldl (fun b t => daySessStep t b) b).user_logouts = b.user_logouts := by
  induction ts with
  | nil => intro b; simp
  | cons t ts ih =>
    intro b
    simp only [List.foldl_cons, List.filter_cons]
    obtain ⟨hd, hsc, ha, hl, ho⟩ := ih (daySessStep t b)
    rw [daySessStep_date] at hd hsc
    by_cases hmatch : formatDateKey t = b.date
    · have hstep : daySessStep t b = { b with sessions_created := b.sessions_created + 1 } := by
        unfold daySessStep
        rw [if_pos hmatch]
      refine ⟨hd, ?_, ?_, ?_, ?_⟩
      · rw [hsc, hstep]
        simp [hmatch]
        omega
      · rw [ha, hstep]
      · rw [hl, hstep]
      · rw [ho, hstep]
    · have hstep : daySessStep t b = b := by
        unfold daySessStep
        rw [if_neg hmatch]
      rw [hstep] at hd hsc ha hl ho ⊢
      refine ⟨hd, ?_, ha, hl, ho⟩
      rw [hsc]
      simp [hmatch]

/-- Start of the local clock hour containing `t` (`setMinutes(0,0,0)` /
`setHours(h, 0, 0, 0)` zero the local minutes and seconds). -/
def localHourStart (t off : Int) : Int := t - (t + off) % 3600

structure HourBucket where
  slot : Int
  actions : Nat
  sessions_created : Nat
  user_logins : Nat
  user_logouts : Nat
deriving DecidableEq

/-- The 24 buckets initialised for `i = 0..23` at the instant
`setHours(getHours() - (23 - i), 0, 0, 0)` of `now`, keyed by the ISO string
of that instant (abstracted as the instant itself). -/
def initTimeline24h (now off : Int) : List HourBucket :=
  (List.range 24).map
    (fun (i : Nat) => ⟨localHourStart now off - (23 - (i : Int)) * 3600, 0, 0, 0, 0⟩)

/-- Bucket membership test of the 24h loop:
`slotTime <= logTime && logTime < slotTime + 1h`. -/
def hourSlotMatch (slot t : Int) : Bool := decide (slot ≤ t ∧ t < slot + 3600)

def logUpd24 (ev : LogEvent) (b : HourBucket) : HourBucket :=
  { b with
      actions := b.actions + 1,
      user_logins := b.user_logins + (if ev.action = "user.login" then 1 else 0),
      user_logouts := b.user_logouts + (if ev.action = "user.logout" then 1 else 0) }

def sessUpd24 (b : HourBucket) : HourBucket :=
  { b with sessions_created := b.sessions_created + 1 }

/-- The `for (const [key, bucket] of timeline24hMap.entries()) ... break` loop:
update the first bucket whose hour slot contains `t`, leave the rest alone. -/
def assign24 (upd : HourBucket → HourBucket) (t : Int) : List HourBucket → List HourBucket
  | [] => []
  | b :: rest => if hourSlotMatch b.slot t then upd b :: rest else b :: assign24 upd t rest

/-- One audit row's effect on the 24h timeline: only rows within the trailing
24 hours are bucketed at all. -/
def applyLog24 (now : Int) (tl : List HourBucket) (ev : LogEvent) : List HourBucket :=
  if now - 86400 ≤ ev.created_at then assign24 (logUpd24 ev) ev.created_at tl else tl

def applySess24 (now : Int) (tl : List HourBucket) (t : Int) : List HourBucket :=
  if now - 86400 ≤ t then assign24 sessUpd24 t tl else tl

/-- `activity_timeline_24h`: initialise the 24 hour buckets, bucket the audit
rows, bucket the session rows.  The final `.sort` call uses a comparator that
always returns 0, so the stable sort leaves the insertion order unchanged and
is omitted. -/
def timeline24h (now off : Int) (logs : List LogEvent) (sessions : List Int) : List HourBucket :=
  sessions.foldl (applySess24 now) (logs.foldl (applyLog24 now) (initTimeline24h now off))

/-- Hour slots pairwise at least one hour apart (in order): guarantees the
buckets' hour intervals are pairwise disjoint, so the first-match `break` is
equivalent to a per-bucket update. -/
def SlotGap (tl : List HourBucket) : Prop :=
  (tl.map (fun b => b.slot)).Pairwise (fun s1 s2 => s1 + 3600 ≤ s2)

/-- Per-bucket form of one audit row's effect on one hour bucket. -/
def hourLogStep (now : Int) (ev : LogEvent) (b : HourBucket) : HourBucket :=
  if now - 86400 ≤ ev.created_at ∧ hourSlotMatch b.slot ev.created_at = true
  then logUpd24 ev b else b

/-- Per-bucket form of one session row's effect on one hour bucket. -/
def hourSessStep (now : Int) (t : Int) (b : HourBucket) : HourBucket :=
  if now - 86400 ≤ t ∧ hourSlotMatch b.slot t = true then sessUpd24 b else b

theorem assign24_eq_map (upd : HourBucket → HourBucket) (t : Int) :
    ∀ tl : List HourBucket, SlotGap tl →
      assign24 upd t tl = tl.map (fun b => if hourSlotMatch b.slot t then upd b else b) := by
  intro tl
  induction tl with
  | nil => intro _; rfl
  | cons b rest ih =>
    intro hgap
    unfold SlotGap at hgap
    rw [List.map_cons, List.pairwise_cons] at hgap
    obtain ⟨hb, hrest⟩ := hgap
    simp only [assign24, List.map_cons]
    by_cases hm : hourSlotMatch b.slot t
    · rw [if_pos hm, if_pos hm]
      congr 1
      have hrest_id : ∀ b2 ∈ rest, (if hourSlotMatch b2.slot t then upd b2 else b2) = b2 := by
        intro b2 hb2
        have hge : b.slot + 3600 ≤ b2.slot := hb b2.slot (List.mem_map_of_mem _ hb2)
        have ht : t < b.slot + 3600 := by
          unfold hourSlotMatch at hm
          rw [decide_eq_true_eq] at hm
          exact hm.2
        have : hourSlotMatch b2.slot t = false := by
          unfold hourSlotMatch
          rw [decide_eq_false_iff_not]
          intro hc
          omega
        rw [this]
        simp
      rw [List.map_congr_left hrest_id]
      simp
    · rw [if_neg hm, if_neg hm, ih hrest]

theorem hourLogStep_slot (now : Int) (ev : LogEvent) (b : HourBucket) :
    (hourLogStep now ev b).slot = b.slot := by
  unfold hourLogStep
  split <;> rfl

theorem hourSessStep_slot (now t : Int) (b : HourBucket) :
    (hourSessStep now t b).slot = b.slot := by
  unfold hourSessStep
  split <;> rfl

theorem slotGap_map (tl : List HourBucket) (f : HourBucket → HourBucket)
    (hf : ∀ b, (f b).slot = b.slot) (h : SlotGap tl) : SlotGap (tl.map f) := by
  unfold SlotGap at h ⊢
  rw [List.map_map]
  have : (tl.map (fun b => (f b).slot)) = tl.map (fun b => b.slot) :=
    List.map_congr_left (fun b _ => hf b)
  rw [show ((fun b => b.slot) ∘ f) = fun b => (f b).slot from rfl, this]
  exact h

theorem applyLog24_eq_map (now : Int) (ev : LogEvent) (tl : List HourBucket) (h : SlotGap tl) :
    applyLog24 now tl ev = tl.map (hourLogStep now ev) := by
  unfold applyLog24
  by_cases hw : now - 86400 ≤ ev.created_at
  · rw [if_pos hw, assign24_eq_map _ _ tl h]
    apply List.map_congr_left
    intro b _
    unfold hourLogStep
    by_cases hm : hourSlotMatch b.slot ev.created_at
    · rw [if_pos hm, if_pos ⟨hw, hm⟩]
    · rw [if_neg hm, if_neg (fun hc => hm hc.2)]
  · rw [if_neg hw]
    have : ∀ b ∈ tl, hourLogStep now ev b = b := by
      intro b _
      unfold hourLogStep
      rw [if_neg (fun hc => hw hc.1)]
    rw [List.map_congr_left this]
    simp

theorem applySess24_eq_map (now t : Int) (tl : List HourBucket) (h : SlotGap tl) :
    applySess24 now tl t = tl.map (hourSessStep now t) := by
  unfold applySess24
  by_cases hw : now - 86400 ≤ t
  · rw [if_pos hw, assign24_eq_map _ _ tl h]
    apply List.map_congr_left
    intro b _
    unfold hourSessStep
    by_cases hm : hourSlotMatch b.slot t
    · rw [if_pos hm, if_pos ⟨hw, hm⟩]
    · rw [if_neg hm, if_neg (fun hc => hm hc.2)]
  · rw [if_neg hw]
    have : ∀ b ∈ tl, hourSessStep now t b = b := by
      intro b _
      unfold hourSessStep
      rw [if_neg (fun hc => hw hc.1)]
    rw [List.map_congr_left this]
    simp

theorem fold24_logs (now : Int) (evs : List LogEvent) :
    ∀ tl : List HourBucket, SlotGap tl →
      evs.foldl (applyLog24 now) tl
        = tl.map (fun b => evs.foldl (fun b ev => hourLogStep now ev b) b) := by
  induction evs with
  | nil =>
    intro tl _
    simp
  | cons ev evs ih =>
    intro tl hgap
    simp only [List.foldl_cons]
    rw [applyLog24_eq_map now ev tl hgap,
      ih _ (slotGap_map tl _ (hourLogStep_slot now ev) hgap), List.map_map]
    rfl

theorem fold24_sess (now : Int) (ts : List Int) :
    ∀ tl : List HourBucket, SlotGap tl →
      ts.foldl (applySess24 now) tl
        = tl.map (fun b => ts.foldl (fun b t => hourSessStep now t b) b) := by
  induction ts with
  | nil =>
    intro tl _
    simp
  | cons t ts ih =>
    intro tl hgap
    simp only [List.foldl_cons]
    rw [applySess24_eq_map now t tl hgap,
      ih _ (slotGap_map tl _ (hourSessStep_slot now t) hgap), List.map_map]
    rfl

theorem hourLogFold (now : Int) (evs : List LogEvent) :
    ∀ b : HourBucket,
      (evs.foldl (fun b ev => hourLogStep now ev b) b).slot = b.slot ∧
      (evs.foldl (fun b ev => hourLogStep now ev b) b).actions
        = b.actions + (evs.filter (fun ev =>
            decide (now - 86400 ≤ ev.created_at) && hourSlotMatch b.slot ev.created_at)).length ∧
      (evs.foldl (fun b ev => hourLogStep now ev b) b).user_logins
        = b.user_logins + (evs.filter (fun ev =>
            decide (now - 86400 ≤ ev.created_at) && hourSlotMatch b.slot ev.created_at
              && (ev.action = "user.login" : Bool))).length ∧
      (evs.foldl (fun b ev => hourLogStep now ev b) b).user_logouts
        = b.user_logouts + (evs.filter (fun ev =>
            decide (now - 86400 ≤ ev.created_at) && hourSlotMatch b.slot ev.created_at
              && (ev.action = "user.logout" : Bool))).length ∧
      (evs.foldl (fun b ev => hourLogStep now ev b) b).sessions_created = b.sessions_created := by
  induction evs with
  | nil => intro b; simp
  | cons ev evs ih =>
    intro b
    simp only [List.foldl_cons, List.filter_cons]
    obtain ⟨hd, ha, hl, ho, hs⟩ := ih (hourLogStep now ev b)
    rw [hourLogStep_slot] at hd ha hl ho
    by_cases hcond : now - 86400 ≤ ev.created_at ∧ hourSlotMatch b.slot ev.created_at = true
    · have hstep : hourLogStep now ev b = logUpd24 ev b := by
        unfold hourLogStep
        rw [if_pos hcond]
      refine ⟨hd, ?_, ?_, ?_, ?_⟩
      · rw [ha, hstep]
        unfold logUpd24
        simp [hcond.1, hcond.2]
        omega
      · rw [hl, hstep]
        unfold logUpd24
        by_cases hact : ev.action = "user.login"
        · simp [hcond.1, hcond.2, hact]
          omega
        · simp [hcond.1, hcond.2, hact]
      · rw [ho, hstep]
        unfold logUpd24
        by_cases hact : ev.action = "user.logout"
        · simp [hcond.1, hcond.2, hact]
          omega
        · simp [hcond.1, hcond.2, hact]
      · rw [hs, hstep]
        rfl
    · have hstep : hourLogStep now ev b = b := by
        unfold hourLogStep
        rw [if_neg hcond]
      rw [hstep] at hd ha hl ho hs ⊢
      have hfilter : (decide (now - 86400 ≤ ev.created_at)
          && hourSlotMatch b.slot ev.created_at) = false := by
        rw [Bool.and_eq_false_iff]
        by_cases hw : now - 86400 ≤ ev.created_at
        · right
          rcases Bool.eq_false_or_eq_true (hourSlotMatch b.slot ev.created_at) with hsm | hsm
          · exact absurd ⟨hw, hsm⟩ hcond
          · exact hsm
        · left
          rw [decide_eq_false_iff_not]
          exact hw
      refine ⟨hd, ?_, ?_, ?_, hs⟩
      · rw [ha, hfilter]
        simp
      · rw [hl, hfilter]
        simp
      · rw [ho, hfilter]
        simp

theorem hourSessFold (now : Int) (ts : List Int) :
    ∀ b : HourBucket,
      (ts.foldl (fun b t => hourSessStep now t b) b).slot = b.slot ∧
      (ts.foldl (fun b t => hourSessStep now t b) b).sessions_created
        = b.sessions_created + (ts.filter (fun t =>
            decide (now - 86400 ≤ t) && hourSlotMatch b.slot t)).length ∧
      (ts.foldl (fun b t => hourSessStep now t b) b).actions = b.actions ∧
      (ts.foldl (fun b t => hourSessStep now t b) b).user_logins = b.user_logins ∧
      (ts.foldl (fun b t => hourSessStep now t b) b).user_logouts = b.user_logouts := by
  induction ts with
  | nil => intro b; simp
  | cons t ts ih =>
    intro b
    simp only [List.foldl_cons, List.filter_cons]
    obtain ⟨hd, hsc, ha, hl, ho⟩ := ih (hourSessStep now t b)
    rw [hourSessStep_slot] at hd hsc
    by_cases hcond : now - 86400 ≤ t ∧ hourSlotMatch b.slot t = true
    · have hstep : hourSessStep now t b = sessUpd24 b := by
        unfold hourSessStep
        rw [if_pos hcond]
      refine ⟨hd, ?_, ?_, ?_, ?_⟩
      · rw [hsc, hstep]
        unfold sessUpd24
        simp [hcond.1, hcond.2]
        omega
      · rw [ha, hstep]
        rfl
      · rw [hl, hstep]
        rfl
      · rw [ho, hstep]
        rfl
    · have hstep : hourSessStep now t b = b := by
        unfold hourSessStep
        rw [if_neg hcond]
      rw [hstep] at hd hsc ha hl ho ⊢
      have hfilter : (decide (now - 86400 ≤ t) && hourSlotMatch b.slot t) = false := by
        rw [Bool.and_eq_false_iff]
        by_cases hw : now - 86400 ≤ t
        · right
          rcases Bool.eq_false_or_eq_true (hourSlotMatch b.slot t) with hsm | hsm
          · exact absurd ⟨hw, hsm⟩ hcond
          · exact hsm
        · left
          rw [decide_eq_false_iff_not]
          exact hw
      refine ⟨hd, ?_, ha, hl, ho⟩
      rw [hsc, hfilter]
      simp

theorem formatDateKey_shift (t k : Int) : formatDateKey (t - k * 86400) = formatDateKey t - k := by
  unfold formatDateKey
  have h : t - k * 86400 = t + (-k) * 86400 := by ring
  rw [h, Int.add_mul_ediv_right t (-k) (by norm_num : (86400 : Int) ≠ 0)]
  ring

theorem initTimeline7d_dates (now : Int) :
    (initTimeline7d now).map (fun b => b.date)
      = (List.range 7).map (fun (i : Nat) => formatDateKey now - 6 + (i : Int)) := by
  unfold initTimeline7d
  rw [List.map_map]
  apply List.map_congr_left
  intro i _
  show formatDateKey (now - (6 - (i : Int)) * 86400) = formatDateKey now - 6 + (i : Int)
  rw [formatDateKey_shift]
  ring

/-- Combined per-bucket effect of all audit rows then all session rows on one
day bucket. -/
def dayFoldAll (logs : List LogEvent) (sessions : List Int) (b : DayBucket) : DayBucket :=
  sessions.foldl (fun b t => daySessStep t b) (logs.foldl (fun b ev => dayLogStep ev b) b)

/-- Combined per-bucket effect of all audit rows then all session rows on one
hour bucket. -/
def hourFoldAll (now : Int) (logs : List LogEvent) (sessions : List Int) (b : HourBucket) :
    HourBucket :=
  sessions.foldl (fun b t => hourSessStep now t b) (logs.foldl (fun b ev => hourLogStep now ev b) b)

theorem dayFoldAll_date (logs : List LogEvent) (sessions : List Int) (b : DayBucket) :
    (dayFoldAll logs sessions b).date = b.date := by
  unfold dayFoldAll
  rw [(daySessFold sessions _).1, (dayLogFold logs b).1]

theorem hourFoldAll_slot (now : Int) (logs : List LogEvent) (sessions : List Int) (b : HourBucket) :
    (hourFoldAll now logs sessions b).slot = b.slot := by
  unfold hourFoldAll
  rw [(hourSessFold now sessions _).1, (hourLogFold now logs b).1]

theorem initTimeline7d_pairwise (now : Int) :
    (initTimeline7d now).Pairwise (fun b1 b2 => b1.date < b2.date) := by
  unfold initTimeline7d
  refine List.Pairwise.map _ ?_ (List.pairwise_lt_range 7)
  intro i j hij
  show formatDateKey (now - (6 - (i : Int)) * 86400)
    < formatDateKey (now - (6 - (j : Int)) * 86400)
  rw [formatDateKey_shift, formatDateKey_shift]
  omega

theorem timeline7d_eq_map (now : Int) (logs : List LogEvent) (sessions : List Int) :
    timeline7d now logs sessions = (initTimeline7d now).map (dayFoldAll logs sessions) := by
  unfold timeline7d
  rw [foldl_map_pointwise dayLogStep logs (initTimeline7d now),
    foldl_map_pointwise daySessStep sessions _, List.map_map]
  have hmapeq : ((initTimeline7d now).map (dayFoldAll logs sessions)).Pairwise
      (fun a b => decide (a.date ≤ b.date) = true) := by
    refine List.Pairwise.map _ ?_ (initTimeline7d_pairwise now)
    intro b1 b2 h12
    rw [decide_eq_true_eq, dayFoldAll_date, dayFoldAll_date]
    omega
  exact List.mergeSort_of_sorted hmapeq

theorem initTimeline24h_gap (now off : Int) : SlotGap (initTimeline24h now off) := by
  unfold SlotGap initTimeline24h
  rw [List.map_map]
  refine List.Pairwise.map _ ?_ (List.pairwise_lt_range 24)
  intro i j hij
  show (localHourStart now off - (23 - (i : Int)) * 3600) + 3600
    ≤ localHourStart now off - (23 - (j : Int)) * 3600
  omega

theorem timeline24h_eq_map (now off : Int) (logs : List LogEvent) (sessions : List Int) :
    timeline24h now off logs sessions
      = (initTimeline24h now off).map (hourFoldAll now logs sessions) := by
  unfold timeline24h
  rw [fold24_logs now logs _ (initTimeline24h_gap now off),
    fold24_sess now sessions _
      (slotGap_map _ _ (fun b => (hourLogFold now logs b).1) (initTimeline24h_gap now off)),
    List.map_map]
  rfl

/-- C3: for every input set of audit events and sessions (including the empty
sets), `activity_timeline_7d` has exactly 7 buckets, one per calendar-day key
from 6 days before today through today in ascending order, and each bucket's
four counters equal the number of events of that kind falling on its day (so a
day with no events appears with all-zero counters); `activity_timeline_24h`
has exactly 24 buckets, one per trailing clock hour from 23 hours ago through
the current hour, and each bucket's counters equal the number of
trailing-24h events falling in its hour slot (so an hour with no events
appears with all-zero counters). -/
theorem C3_timeline_shapes (now off : Int) (logs : List LogEvent) (sessions : List Int) :
    (timeline7d now logs sessions).length = 7 ∧
    (timeline7d now logs sessions).map (fun b => b.date)
      = (List.range 7).map (fun (i : Nat) => formatDateKey now - 6 + (i : Int)) ∧
    (∀ b ∈ timeline7d now logs sessions,
      b.actions = (logs.filter (fun ev =>
        (formatDateKey ev.created_at = b.date : Bool))).length ∧
      b.sessions_created = (sessions.filter (fun t =>
        (formatDateKey t = b.date : Bool))).length ∧
      b.user_logins = (logs.filter (fun ev =>
        (formatDateKey ev.created_at = b.date : Bool)
          && (ev.action = "user.login" : Bool))).length ∧
      b.user_logouts = (logs.filter (fun ev =>
        (formatDateKey ev.created_at = b.date : Bool)
          && (ev.action = "user.logout" : Bool))).length) ∧
    (timeline24h now off logs sessions).length = 24 ∧
    (timeline24h now off logs sessions).map (fun b => b.slot)
      = (List.range 24).map (fun (i : Nat) => localHourStart now off - (23 - (i : Int)) * 3600) ∧
    (∀ b ∈ timeline24h now off logs sessions,
      b.actions = (logs.filter (fun ev =>
        decide (now - 86400 ≤ ev.created_at) && hourSlotMatch b.slot ev.created_at)).length ∧
      b.sessions_created = (sessions.filter (fun t =>
        decide (now - 86400 ≤ t) && hourSlotMatch b.slot t)).length ∧
      b.user_logins = (logs.filter (fun ev =>
        decide (now - 86400 ≤ ev.created_at) && hourSlotMatch b.slot ev.created_at
          && (ev.action = "user.login" : Bool))).length ∧
      b.user_logouts = (logs.filter (fun ev =>
        decide (now - 86400 ≤ ev.created_at) && hourSlotMatch b.slot ev.created_at
          && (ev.action = "user.logout" : Bool))).length) := by
  refine ⟨?_, ?_, ?_, ?_, ?_, ?_⟩
  · rw [timeline7d_eq_map]
    simp [initTimeline7d]
  · rw [timeline7d_eq_map, List.map_map]
    have h1 : List.map ((fun b => b.date) ∘ dayFoldAll logs sessions) (initTimeline7d now)
        = List.map (fun b => b.date) (initTimeline7d now) :=
      List.map_congr_left (fun b _ => dayFoldAll_date logs sessions b)
    rw [h1]
    exact initTimeline7d_dates now
  · rw [timeline7d_eq_map]
    intro b hb
    rcases List.mem_map.mp hb with ⟨b0, hb0, rfl⟩
    rcases List.mem_map.mp hb0 with ⟨i, _, rfl⟩
    rw [dayFoldAll_date]
    unfold dayFoldAll
    refine ⟨?_, ?_, ?_, ?_⟩
    · rw [(daySessFold sessions _).2.2.1, (dayLogFold logs _).2.1]
      simp
    · rw [(daySessFold sessions _).2.1, (dayLogFold logs _).2.2.2.2, (dayLogFold logs _).1]
      simp
    · rw [(daySessFold sessions _).2.2.2.1, (dayLogFold logs _).2.2.1]
      simp
    · rw [(daySessFold sessions _).2.2.2.2, (dayLogFold logs _).2.2.2.1]
      simp
  · rw [timeline24h_eq_map]
    simp [initTimeline24h]
  · rw [timeline24h_eq_map, List.map_map]
    have h1 : List.map ((fun b => b.slot) ∘ hourFoldAll now logs sessions) (initTimeline24h now off)
        = List.map (fun b => b.slot) (initTimeline24h now off) :=
      List.map_congr_left (fun b _ => hourFoldAll_slot now logs sessions b)
    rw [h1]
    unfold initTimeline24h
    rw [List.map_map]
    rfl
  · rw [timeline24h_eq_map]
    intro b hb
    rcases List.mem_map.mp hb with ⟨b0, hb0, rfl⟩
    rcases List.mem_map.mp hb0 with ⟨i, _, rfl⟩
    rw [hourFoldAll_slot]
    unfold hourFoldAll
    refine ⟨?_, ?_, ?_, ?_⟩
    · rw [(hourSessFold now sessions _).2.2.1, (hourLogFold now logs _).2.1]
      simp
    · rw [(hourSessFold now sessions _).2.1, (hourLogFold now logs _).2.2.2.2,
        (hourLogFold now logs _).1]
      simp
    · rw [(hourSessFold now sessions _).2.2.2.1, (hourLogFold now logs _).2.2.1]
      simp
    · rw [(hourSessFold now sessions _).2.2.2.2, (hourLogFold now logs _).2.2.2.1]
      simp

/-- C3 witness: on empty inputs at `now = 0`, the oldest bucket (UTC day -6)
is present and the theorem instantiates to its all-zero action count. -/
theorem C3_witness :
    (⟨-6, 0, 0, 0, 0⟩ : DayBucket).actions
      = (([] : List LogEvent).filter (fun ev =>
          (formatDateKey ev.created_at = ((⟨-6, 0, 0, 0, 0⟩ : DayBucket)).date : Bool))).length :=
  ((C3_timeline_shapes 0 0 [] []).2.2.1 ⟨-6, 0, 0, 0, 0⟩ (by decide)).1

/-- C4: `formatDateKey` buckets an event by its UTC calendar date
(`toISOString`), not its local calendar date: with a fixed offset of +02:00
(7200 s), the event at 82800 s after the epoch (1970-01-01T23:00:00Z, local
wall clock 1970-01-02 01:00) is bucketed under UTC day 0 (1970-01-01) although
its local calendar date is day 1 (1970-01-02) — contradicting both the claim
and the code's own inline comment that the key is the local date. -/
theorem C4_formatDateKey_is_utc_not_local :
    formatDateKey 82800 = 0 ∧ localDayKey 82800 7200 = 1 ∧
    ¬ formatDateKey 82800 = localDayKey 82800 7200 := by decide
